import Mathlib

/-!
# Verification of the mbed → PlatformIO build adapter

Shallow embedding of `pio_mbed_adapter.py` from `builder-framework-mbed`.
Python strings are modelled as `List Char` (Python compares strings by code
points, which matches `Char` order).  Python `None`-able string values are
modelled as `Option (List Char)`.  The external mbed toolchain collaborators
(`prepare_toolchain`, `Resources.scan_with_toolchain`, `TARGET_MAP`,
`merge_region_list`, the profile JSON file) are modelled as oracle data
threaded through an environment record, and the adapter's observable actions
(stderr writes, collaborator invocations) are recorded as an event trace.
-/

namespace Mbed

/-- A Python string, as its list of characters. -/
abbrev PyStr := List Char

/-- Embed a Lean string literal as a Python string. -/
def pstr (s : String) : PyStr := s.data

/-- `os.path.sep` on the posix platform the scripts run on. -/
def sep : Char := '/'

/-- `os.path.basename`: everything after the last separator
(`p[p.rfind(sep)+1:]`). -/
def basename (p : PyStr) : PyStr :=
  (p.reverse.takeWhile (fun c => decide (c ≠ sep))).reverse

/-- `sub` is a prefix of `s` (character-wise). -/
def startsWithL : PyStr → PyStr → Bool
  | [], _ => true
  | _ :: _, [] => false
  | a :: as, b :: bs => if a = b then startsWithL as bs else false

/-- Python `s.index(sub)`: index of the leftmost occurrence of `sub` in `s`,
or `none` when `sub` does not occur (in which case Python `sub in s` is
false and `s.index` would raise). -/
def findSub : PyStr → PyStr → Option Nat
  | [], sub => if sub = [] then some 0 else none
  | c :: t, sub =>
    if startsWithL sub (c :: t) then some 0 else (findSub t sub).map (· + 1)

/-- Python `sub in s` (substring test). -/
def occursB (s sub : PyStr) : Bool := (findSub s sub).isSome

/-- `PlatformioMbedAdapter.fix_path` (pio_mbed_adapter.py:60-71).
`path` is `Option`-valued because the scanner hands the adapter `None` for an
absent linker script; `if not path` catches both `None` and `""`. -/
def fix_path (framework_path : PyStr) (path : Option PyStr) : PyStr :=
  match path with
  | none => []
  | some p =>
    if p = [] then []
    else
      let framework_dir := basename framework_path
      match findSub p framework_dir with
      | some i => ((p.drop (i + framework_dir.length)).drop 1)
      | none => p

/-- `PlatformioMbedAdapter.fix_paths` (pio_mbed_adapter.py:73-81): apply
`fix_path` to every entry and drop the entries that normalize to `""`. -/
def fix_paths (framework_path : PyStr) : List (Option PyStr) → List PyStr
  | [] => []
  | p :: rest =>
    if fix_path framework_path p = [] then fix_paths framework_path rest
    else fix_path framework_path p :: fix_paths framework_path rest

/-- One step of splitting a path on the separator. -/
def splitSepStep (c : Char) (acc : List PyStr) : List PyStr :=
  if c = sep then [] :: acc
  else
    match acc with
    | [] => [[c]]
    | h :: t => (c :: h) :: t

/-- Splitting a path on the separator (the path's component sequence). -/
def splitSep (p : PyStr) : List PyStr := p.foldr splitSepStep [[]]

/-- Rejoining path components with the separator. -/
def joinSep : List PyStr → PyStr
  | [] => []
  | [s] => s
  | s :: ss => s ++ sep :: joinSep ss

/-- `os.path.join(a, b)` (posix, two arguments). -/
def pyJoin (a b : PyStr) : PyStr :=
  if b.head? = some sep then b
  else if a = [] ∨ a.getLast? = some sep then a ++ b
  else a ++ sep :: b

/-- `s.replace('"', '\\"')`: prefix every quote character with a backslash. -/
def escape_quotes : PyStr → PyStr
  | [] => []
  | c :: t => if c = '"' then '\\' :: '"' :: escape_quotes t else c :: escape_quotes t

/-- The build-timestamp marker token filtered out by `process_symbols`. -/
def TIMESTAMP_MARKER : PyStr := pstr "MBED_BUILD_TIMESTAMP"

/-- The loop body of `PlatformioMbedAdapter.process_symbols`
(pio_mbed_adapter.py:108-118): drop entries containing the timestamp marker,
escape quotes in entries containing both a quote and `".h"`, keep the rest. -/
def process_symbols_loop : List PyStr → List PyStr
  | [] => []
  | s :: rest =>
    if occursB s TIMESTAMP_MARKER then process_symbols_loop rest
    else if decide ('"' ∈ s) && occursB s (pstr ".h") then
      escape_quotes s :: process_symbols_loop rest
    else s :: process_symbols_loop rest

/-- Python string `<=` on `List Char` (lexicographic by code point, the order
used by `list.sort()` on strings). -/
def lexLe : PyStr → PyStr → Bool
  | [], _ => true
  | _ :: _, [] => false
  | a :: as, b :: bs => if a < b then true else if b < a then false else lexLe as bs

/-- Python string `<` on `List Char`. -/
def lexLt : PyStr → PyStr → Bool
  | [], [] => false
  | [], _ :: _ => true
  | _ :: _, [] => false
  | a :: as, b :: bs => if a < b then true else if b < a then false else lexLt as bs

/-- `lexLe` as a relation, for use with `List.insertionSort`. -/
def pyLe (a b : PyStr) : Prop := lexLe a b = true

instance : DecidableRel pyLe := fun a b => inferInstanceAs (Decidable (lexLe a b = true))

/-- `PlatformioMbedAdapter.process_symbols` (pio_mbed_adapter.py:107-122):
the filtering/escaping loop followed by `result.sort()`. -/
def process_symbols (symbols : List PyStr) : List PyStr :=
  List.insertionSort pyLe (process_symbols_loop symbols)

/-- What the loop body of `process_symbols` does to one entry. -/
def symStep (s : PyStr) : Option PyStr :=
  if occursB s TIMESTAMP_MARKER then none
  else if decide ('"' ∈ s) && occursB s (pstr ".h") then some (escape_quotes s)
  else some s

/-- The VALUE part of a `NAME=VALUE` preprocessor entry: everything after the
first `=` (entries without `=` carry no value). -/
def pyValue (s : PyStr) : PyStr :=
  match findSub s (pstr "=") with
  | some i => s.drop (i + 1)
  | none => []

/-- Bool test that a symbol string is strictly sorted would use: every
adjacent pair strictly increasing. -/
def strictSortedB : List PyStr → Bool
  | [] => true
  | [_] => true
  | a :: b :: t => lexLt a b && strictSortedB (b :: t)

/-- Every literal quote character in the string is immediately preceded by a
backslash. -/
def quotesEscapedB : PyStr → Bool
  | [] => true
  | [c] => if c = '"' then false else true
  | c :: d :: t =>
    if c = '"' then false
    else if c = '\\' ∧ d = '"' then quotesEscapedB t
    else quotesEscapedB (d :: t)

/-- An mbed flash region descriptor (the fields of the mbed `Region`
namedtuple used by `merge_apps`). -/
structure Region where
  name : PyStr
  start : Nat
  size : Nat
  active : Bool
  filename : Option PyStr
deriving DecidableEq

/-- One invocation of the external `merge_region_list` collaborator: the
region list handed over and the destination artifact path. -/
structure MergeCall where
  regions : List Region
  dest : PyStr
deriving DecidableEq

/-- `PlatformioMbedAdapter.merge_apps` (pio_mbed_adapter.py:127-146), as the
sequence of `merge_region_list` invocations it requests.  `wl` is the
imported `UPDATE_WHITELIST` constant and `update_fname` the (external)
`generate_update_filename(firmware_path, target)` result. -/
def merge_apps (wl : List PyStr) (build_path update_fname : PyStr) (has_regions : Bool)
    (regions : List Region) (userprog_path firmware_path : PyStr) : List MergeCall :=
  if has_regions then
    let region_list :=
      regions.map (fun r => if r.active then { r with filename := some userprog_path } else r)
    let update_regions := region_list.filter (fun r => decide (r.name ∈ wl))
    if update_regions = [] then
      [⟨region_list, firmware_path⟩]
    else
      [⟨region_list, firmware_path⟩, ⟨update_regions, pyJoin build_path update_fname⟩]
  else []

/-- The categorized file-reference lists exposed by the external resource
scanner (`Resources.scan_with_toolchain` result), as consumed at
pio_mbed_adapter.py:197-218.  Entries are `Option`-valued: the scanner hands
back `None` for an absent linker script. -/
structure Resources where
  s_sources : List (Option PyStr)
  c_sources : List (Option PyStr)
  cpp_sources : List (Option PyStr)
  inc_dirs : List (Option PyStr)
  linker_script : Option PyStr
  objects : List (Option PyStr)
  libraries : List (Option PyStr)
  lib_dirs : List (Option PyStr)
  hex_files : List (Option PyStr)
  bin_files : List (Option PyStr)
deriving DecidableEq

/-- The toolchain's flag sets (`toolchain.flags` is a dict of flag lists). -/
abbrev FlagsDict := List (PyStr × List PyStr)

/-- The slice of the opaque toolchain handle read by `extract_project_info`:
its flag dict, system libraries and raw symbol list (`get_symbols()`). -/
structure Toolchain where
  flags : FlagsDict
  sys_libs : List PyStr
  symbols : List PyStr
deriving DecidableEq

/-- The result mapping built at pio_mbed_adapter.py:206-219. -/
structure ProjectInfoResult where
  src_files : List PyStr
  inc_dirs : List PyStr
  ldscript : List PyStr
  objs : List PyStr
  build_flags : FlagsDict
  libs : List PyStr
  lib_paths : List PyStr
  syslibs : List PyStr
  build_symbols : List PyStr
  hex : List PyStr
  bin : List PyStr
deriving DecidableEq

/-- The result-shaping step of `extract_project_info`
(pio_mbed_adapter.py:197-219): concatenate the source categories, normalize
every path-bearing field with `fix_paths`, take basenames for `libs`, and
sanitize the symbol list. -/
def mbed_result (framework_path : PyStr) (resources : Resources) (toolchain : Toolchain) :
    ProjectInfoResult :=
  let src_files := resources.s_sources ++ resources.c_sources ++ resources.cpp_sources
  { src_files := fix_paths framework_path src_files
    inc_dirs := fix_paths framework_path resources.inc_dirs
    ldscript := fix_paths framework_path [resources.linker_script]
    objs := fix_paths framework_path resources.objects
    build_flags := toolchain.flags
    libs := (fix_paths framework_path resources.libraries).map basename
    lib_paths := fix_paths framework_path resources.lib_dirs
    syslibs := toolchain.sys_libs
    build_symbols := process_symbols toolchain.symbols
    hex := fix_paths framework_path resources.hex_files
    bin := fix_paths framework_path resources.bin_files }

/-- Every raw file reference handed back by the scanner is empty/absent. -/
def raw_file_refs_empty (r : Resources) : Prop :=
  r.s_sources = [] ∧ r.c_sources = [] ∧ r.cpp_sources = [] ∧ r.inc_dirs = [] ∧
  r.linker_script = none ∧ r.objects = [] ∧ r.libraries = [] ∧ r.lib_dirs = [] ∧
  r.hex_files = [] ∧ r.bin_files = []

instance (r : Resources) : Decidable (raw_file_refs_empty r) := by
  unfold raw_file_refs_empty; infer_instance

/-- An entry of the external `TARGET_MAP` registry (opaque target config). -/
structure TargetInfo where
  idx : Nat
deriving DecidableEq

/-- The loaded contents of the build-profile JSON file (opaque). -/
abbrev ProfileDoc := Unit

/-- Observable actions of one `extract_project_info` run: lines successfully
written to stderr and invocations of the external collaborators. -/
inductive BuildEvent where
  | wroteStderr (line : PyStr)
  | preparedToolchain
  | scannedResources
  | generatedConfig
deriving DecidableEq

/-- How a run terminates abnormally: `sys.exit(code)`, or an uncaught Python
exception (here only `TypeError`). -/
inductive PyAbort where
  | exited (code : Nat)
  | typeErrorRaised (msg : PyStr)
deriving DecidableEq

/-- Python's `sys.stderr.write`: it accepts exactly one string argument.
Called with any other number of positional arguments it raises a `TypeError`
before anything is written. -/
def stderr_write (args : List PyStr) : List BuildEvent × Option PyAbort :=
  match args with
  | [s] => ([.wroteStderr s], none)
  | _ => ([], some (.typeErrorRaised (pstr "write() takes exactly one argument (2 given)")))

/-- Association-list lookup modelling `TARGET_MAP.get(target, "")` followed by
the `if not target_info` falsiness test. -/
def alookup (m : List (PyStr × TargetInfo)) (k : PyStr) : Option TargetInfo :=
  match m with
  | [] => none
  | (k2, v) :: rest => if k2 = k then some v else alookup rest k

/-- `PlatformioMbedAdapter.get_target_config` (pio_mbed_adapter.py:95-102).
On a missing target the code runs
`sys.stderr.write("Failed to extract info for %s target\n", self.target)` —
two arguments — and only then `sys.exit(1)`. -/
def get_target_config (target_map : List (PyStr × TargetInfo)) (target : PyStr) :
    List BuildEvent × Except PyAbort TargetInfo :=
  match alookup target_map target with
  | some info => ([], .ok info)
  | none =>
    let w := stderr_write [pstr "Failed to extract info for %s target\n", target]
    match w.2 with
    | some a => (w.1, .error a)
    | none => (w.1, .error (.exited 1))

/-- `PlatformioMbedAdapter.get_build_profile` (pio_mbed_adapter.py:83-93):
if the profile file is absent, write a diagnostic and `sys.exit(1)`;
otherwise load it and return the one-element profile list. -/
def get_build_profile (profile_file_exists : Bool) (profile_contents : ProfileDoc) :
    List BuildEvent × Except PyAbort (List ProfileDoc) :=
  if profile_file_exists then ([], .ok [profile_contents])
  else
    let w := stderr_write [pstr "Could not find the file with build profiles!\n"]
    match w.2 with
    | some a => (w.1, .error a)
    | none => (w.1, .error (.exited 1))

/-- The external state one `extract_project_info` run interacts with: the
target registry, the profile file, and the data the (external) toolchain
preparation and resource scan hand back. -/
structure MbedEnv where
  target_map : List (PyStr × TargetInfo)
  profile_file_exists : Bool
  profile_contents : ProfileDoc
  toolchain : Toolchain
  resources : Resources

/-- `PlatformioMbedAdapter.extract_project_info` (pio_mbed_adapter.py:148-221)
as a trace of observable actions plus its outcome.  The control flow mirrors
the source: target lookup, then profile load, then toolchain preparation,
then the resource scan, then (optionally) config-header generation, then the
result mapping; any abort stops the run where it happens. -/
def extract_project_info (env : MbedEnv) (framework_path target : PyStr)
    (generate_config : Bool) : List BuildEvent × Except PyAbort ProjectInfoResult :=
  let t := get_target_config env.target_map target
  match t.2 with
  | .error a => (t.1, .error a)
  | .ok _target_info =>
    let bp := get_build_profile env.profile_file_exists env.profile_contents
    match bp.2 with
    | .error a => (t.1 ++ bp.1, .error a)
    | .ok _profiles =>
      let prep := [BuildEvent.preparedToolchain]
      let scan := [BuildEvent.scannedResources]
      let conf := if generate_config then [BuildEvent.generatedConfig] else []
      (t.1 ++ bp.1 ++ prep ++ scan ++ conf,
       .ok (mbed_result framework_path env.resources env.toolchain))

/-! ### Lexicographic order lemmas -/

theorem lexLe_refl (a : PyStr) : lexLe a a = true := by
  induction a with
  | nil => rfl
  | cons c t ih => simp [lexLe, lt_irrefl, ih]

theorem lexLe_total (a b : PyStr) : lexLe a b = true ∨ lexLe b a = true := by
  induction a generalizing b with
  | nil => exact Or.inl rfl
  | cons x xs ih =>
    cases b with
    | nil => exact Or.inr rfl
    | cons y ys =>
      rcases lt_trichotomy x y with h | h | h
      · left; simp [lexLe, h]
      · subst h
        rcases ih ys with h2 | h2
        · left; simp [lexLe, lt_irrefl, h2]
        · right; simp [lexLe, lt_irrefl, h2]
      · right; simp [lexLe, h]

theorem lexLe_trans {a b c : PyStr} (hab : lexLe a b = true) (hbc : lexLe b c = true) :
    lexLe a c = true := by
  induction a generalizing b c with
  | nil => rfl
  | cons x xs ih =>
    cases b with
    | nil => simp [lexLe] at hab
    | cons y ys =>
      cases c with
      | nil => simp [lexLe] at hbc
      | cons z zs =>
        rcases lt_trichotomy x y with hxy | hxy | hxy
        · rcases lt_trichotomy y z with hyz | hyz | hyz
          · simp [lexLe, lt_trans hxy hyz]
          · subst hyz; simp [lexLe, hxy]
          · simp [lexLe, hyz, asymm hyz] at hbc
        · subst hxy
          rcases lt_trichotomy x z with hyz | hyz | hyz
          · simp [lexLe, hyz]
          · subst hyz
            simp only [lexLe, lt_irrefl, if_false] at hab hbc ⊢
            exact ih hab hbc
          · simp [lexLe, hyz, asymm hyz] at hbc
        · simp [lexLe, hxy, asymm hxy] at hab

theorem lexLe_antisymm {a b : PyStr} (hab : lexLe a b = true) (hba : lexLe b a = true) :
    a = b := by
  induction a generalizing b with
  | nil =>
    cases b with
    | nil => rfl
    | cons y ys => simp [lexLe] at hba
  | cons x xs ih =>
    cases b with
    | nil => simp [lexLe] at hab
    | cons y ys =>
      rcases lt_trichotomy x y with hxy | hxy | hxy
      · simp [lexLe, hxy, asymm hxy] at hba
      · subst hxy
        simp only [lexLe, lt_irrefl, if_false] at hab hba
        rw [ih hab hba]
      · simp [lexLe, hxy, asymm hxy] at hab

/-! ### Substring machinery -/

theorem startsWithL_iff {sub s : PyStr} : startsWithL sub s = true ↔ ∃ t, s = sub ++ t := by
  induction sub generalizing s with
  | nil => simp [startsWithL]
  | cons a as ih =>
    cases s with
    | nil =>
      simp only [startsWithL, List.cons_append]
      constructor
      · intro h; cases h
      · rintro ⟨t, ht⟩; cases ht
    | cons b bs =>
      simp only [startsWithL, List.cons_append]
      by_cases hab : a = b
      · subst hab
        rw [if_pos rfl, ih]
        constructor
        · rintro ⟨t, ht⟩; exact ⟨t, by rw [ht]⟩
        · rintro ⟨t, ht⟩
          injection ht with _ h2
          exact ⟨t, h2⟩
      · rw [if_neg hab]
        constructor
        · intro h; cases h
        · rintro ⟨t, ht⟩
          injection ht with h1 _
          exact absurd h1.symm hab

theorem startsWithL_append (sub t : PyStr) : startsWithL sub (sub ++ t) = true :=
  startsWithL_iff.mpr ⟨t, rfl⟩

theorem occursB_drop {s sub : PyStr} :
    occursB s sub = true ↔ ∃ k, startsWithL sub (s.drop k) = true := by
  induction s with
  | nil =>
    cases sub with
    | nil =>
      constructor
      · intro _; exact ⟨0, rfl⟩
      · intro _; rfl
    | cons x xs =>
      constructor
      · intro h; cases h
      · rintro ⟨k, hk⟩
        rw [List.drop_nil] at hk
        cases hk
  | cons c t ih =>
    by_cases h0 : startsWithL sub (c :: t) = true
    · constructor
      · intro _; exact ⟨0, by simpa using h0⟩
      · intro _
        simp only [occursB, findSub, h0, if_true, Option.isSome_some]
    · have hL : occursB (c :: t) sub = occursB t sub := by
        cases hft : findSub t sub <;>
          simp [occursB, findSub, h0, hft]
      rw [hL, ih]
      constructor
      · rintro ⟨k, hk⟩; exact ⟨k + 1, by simpa using hk⟩
      · rintro ⟨k, hk⟩
        cases k with
        | zero => rw [List.drop_zero] at hk; exact absurd hk h0
        | succ k2 => exact ⟨k2, by simpa using hk⟩

theorem occursB_iff {s sub : PyStr} : occursB s sub = true ↔ ∃ a b, s = a ++ sub ++ b := by
  rw [occursB_drop]
  constructor
  · rintro ⟨k, hk⟩
    obtain ⟨u, hu⟩ := startsWithL_iff.mp hk
    refine ⟨s.take k, u, ?_⟩
    conv_lhs => rw [← List.take_append_drop k s]
    rw [hu, List.append_assoc]
  · rintro ⟨a, b, hab⟩
    refine ⟨a.length, ?_⟩
    rw [hab, List.append_assoc, List.drop_left a (sub ++ b)]
    exact startsWithL_append sub b

theorem occursB_eq_false_iff {s sub : PyStr} :
    occursB s sub = false ↔ ∀ a b, s ≠ a ++ sub ++ b := by
  constructor
  · intro h a b hab
    rw [occursB_iff.mpr ⟨a, b, hab⟩] at h
    cases h
  · intro h
    cases hoc : occursB s sub
    · rfl
    · obtain ⟨a, b, hab⟩ := occursB_iff.mp hoc
      exact absurd hab (h a b)

theorem findSub_eq_some_iff {s sub : PyStr} {k : Nat} :
    findSub s sub = some k ↔
      (startsWithL sub (s.drop k) = true ∧ ∀ j, j < k → startsWithL sub (s.drop j) = false) := by
  induction s generalizing k with
  | nil =>
    cases sub with
    | nil =>
      simp only [findSub, if_pos rfl, List.drop_nil]
      constructor
      · intro h
        injection h with h
        subst h
        exact ⟨rfl, fun j hj => absurd hj (Nat.not_lt_zero j)⟩
      · rintro ⟨_, h2⟩
        cases k with
        | zero => rfl
        | succ k2 =>
          have := h2 0 (Nat.succ_pos k2)
          cases this
    | cons x xs =>
      simp only [findSub, List.drop_nil]
      constructor
      · intro h; cases h
      · rintro ⟨h1, _⟩; cases h1
  | cons c t ih =>
    by_cases h0 : startsWithL sub (c :: t) = true
    · simp only [findSub, h0, if_true]
      constructor
      · intro h
        injection h with h
        subst h
        exact ⟨by simpa using h0, fun j hj => absurd hj (Nat.not_lt_zero j)⟩
      · rintro ⟨_, h2⟩
        cases k with
        | zero => rfl
        | succ k2 =>
          have h3 := h2 0 (Nat.succ_pos k2)
          rw [List.drop_zero] at h3
          rw [h0] at h3
          cases h3
    · have h0f : startsWithL sub (c :: t) = false := by
        cases hs : startsWithL sub (c :: t)
        · rfl
        · exact absurd hs h0
      simp only [findSub, h0f, Bool.false_eq_true, if_false]
      cases k with
      | zero =>
        constructor
        · intro h
          cases hft : findSub t sub with
          | none => rw [hft] at h; cases h
          | some m => rw [hft] at h; simp at h
        · rintro ⟨h1, _⟩
          rw [List.drop_zero] at h1
          exact absurd h1 h0
      | succ k2 =>
        have hmap : ((findSub t sub).map (· + 1) = some (k2 + 1)) ↔ findSub t sub = some k2 := by
          cases findSub t sub <;> simp
        rw [hmap, ih]
        constructor
        · rintro ⟨h1, h2⟩
          refine ⟨by simpa using h1, fun j hj => ?_⟩
          cases j with
          | zero => simpa using h0f
          | succ j2 => simpa using h2 j2 (Nat.lt_of_succ_lt_succ hj)
        · rintro ⟨h1, h2⟩
          refine ⟨by simpa using h1, fun j hj => ?_⟩
          simpa using h2 (j + 1) (Nat.succ_lt_succ hj)

/-! ### Path helper lemmas -/

theorem sep_not_mem_basename (p : PyStr) : sep ∉ basename p := by
  intro h
  unfold basename at h
  rw [List.mem_reverse] at h
  have := List.mem_takeWhile_imp h
  simp at this

theorem splitSep_cons (c : Char) (t : PyStr) :
    splitSep (c :: t) = splitSepStep c (splitSep t) := rfl

theorem splitSep_ne_nil (p : PyStr) : splitSep p ≠ [] := by
  cases p with
  | nil => simp [splitSep]
  | cons c t =>
    rw [splitSep_cons]
    unfold splitSepStep
    by_cases h : c = sep
    · simp [h]
    · rw [if_neg h]
      cases splitSep t <;> simp

theorem joinSep_splitSep (p : PyStr) : joinSep (splitSep p) = p := by
  induction p with
  | nil => rfl
  | cons c t ih =>
    rw [splitSep_cons]
    by_cases h : c = sep
    · subst h
      rw [show splitSepStep sep (splitSep t) = [] :: splitSep t from if_pos rfl]
      cases hs : splitSep t with
      | nil => exact absurd hs (splitSep_ne_nil t)
      | cons x xs =>
        rw [hs] at ih
        have hdef : joinSep ([] :: x :: xs) = [] ++ sep :: joinSep (x :: xs) := rfl
        rw [hdef, List.nil_append, ih]
    · cases hs : splitSep t with
      | nil => exact absurd hs (splitSep_ne_nil t)
      | cons x xs =>
        rw [hs] at ih
        rw [show splitSepStep c (x :: xs) = (c :: x) :: xs from by
          unfold splitSepStep; rw [if_neg h]]
        cases xs with
        | nil =>
          have hdef : joinSep [c :: x] = c :: x := rfl
          rw [hdef]
          have hx : joinSep [x] = x := rfl
          rw [hx] at ih
          rw [ih]
        | cons y ys =>
          have hdef : joinSep ((c :: x) :: y :: ys) = (c :: x) ++ sep :: joinSep (y :: ys) := rfl
          rw [hdef, List.cons_append]
          have hih : x ++ sep :: joinSep (y :: ys) = t := ih
          rw [hih]

theorem splitSep_sep_append (c0 q : PyStr) (h : sep ∉ c0) :
    splitSep (c0 ++ sep :: q) = c0 :: splitSep q := by
  induction c0 with
  | nil =>
    rw [List.nil_append, splitSep_cons]
    unfold splitSepStep
    rw [if_pos rfl]
  | cons a as ih =>
    have ha : a ≠ sep := fun hh => h (hh ▸ List.mem_cons_self a as)
    have has : sep ∉ as := fun hh => h (List.mem_cons_of_mem a hh)
    rw [List.cons_append, splitSep_cons, ih has]
    unfold splitSepStep
    rw [if_neg ha]

/-! ### Escape lemmas -/

/-- Peeling a quote-free, backslash-free prefix off an escaped string: the
same prefix must already start the original string. -/
theorem escape_quotes_append_split :
    ∀ (v u w : PyStr), '"' ∉ v → '\\' ∉ v → escape_quotes u = v ++ w →
      ∃ u2, u = v ++ u2 ∧ escape_quotes u2 = w := by
  intro v
  induction v with
  | nil => intro u w _ _ h; exact ⟨u, rfl, h⟩
  | cons d v2 ih =>
    intro u w hq hb h
    have hq2 : '"' ∉ v2 := fun hh => hq (List.mem_cons_of_mem d hh)
    have hb2 : '\\' ∉ v2 := fun hh => hb (List.mem_cons_of_mem d hh)
    cases u with
    | nil =>
      rw [show escape_quotes [] = [] from rfl] at h
      cases h
    | cons e u2 =>
      by_cases he : e = '"'
      · subst he
        rw [escape_quotes, if_pos rfl] at h
        rw [List.cons_append] at h
        injection h with h1 _
        exact absurd (h1 ▸ List.mem_cons_self d v2) hb
      · rw [escape_quotes, if_neg he] at h
        rw [List.cons_append] at h
        injection h with h1 h2
        obtain ⟨u3, hu3, hw⟩ := ih u2 w hq2 hb2 h2
        exact ⟨u3, by rw [hu3, ← h1, List.cons_append], hw⟩

/-- An occurrence of a quote-free, backslash-free substring in an escaped
string comes from an occurrence in the original string. -/
theorem occurs_of_occurs_escape {sub : PyStr} (hq : '"' ∉ sub) (hb : '\\' ∉ sub) :
    ∀ (s a b : PyStr), escape_quotes s = a ++ sub ++ b →
      ∃ a2 b2, s = a2 ++ sub ++ b2 := by
  intro s
  induction s with
  | nil =>
    intro a b h
    rw [show escape_quotes [] = [] from rfl] at h
    have h2 : a ++ sub = [] ∧ b = [] := List.append_eq_nil.mp h.symm
    have h3 : sub = [] := (List.append_eq_nil.mp h2.1).2
    exact ⟨[], [], by simp [h3]⟩
  | cons c t ih =>
    intro a b h
    by_cases hc : c = '"'
    · subst hc
      rw [escape_quotes, if_pos rfl] at h
      cases a with
      | nil =>
        cases sub with
        | nil => exact ⟨[], '"' :: t, by simp⟩
        | cons x xs =>
          simp only [List.nil_append, List.cons_append] at h
          injection h with h1 _
          exact absurd (h1 ▸ List.mem_cons_self x xs) hb
      | cons a0 a2 =>
        simp only [List.cons_append, List.append_assoc] at h
        injection h with h1 h2
        cases a2 with
        | nil =>
          cases sub with
          | nil => exact ⟨[], '"' :: t, by simp⟩
          | cons x xs =>
            simp only [List.nil_append, List.cons_append] at h2
            injection h2 with h3 _
            exact absurd (h3 ▸ List.mem_cons_self x xs) hq
        | cons a1 a3 =>
          simp only [List.cons_append] at h2
          injection h2 with h3 h4
          rw [← List.append_assoc] at h4
          obtain ⟨a4, b4, hab⟩ := ih a3 b h4
          refine ⟨'"' :: a4, b4, ?_⟩
          rw [hab]
          simp only [List.cons_append, List.append_assoc]
    · rw [escape_quotes, if_neg hc] at h
      cases a with
      | nil =>
        cases sub with
        | nil => exact ⟨[], c :: t, by simp⟩
        | cons x xs =>
          simp only [List.nil_append, List.cons_append] at h
          injection h with h1 h2
          have hq2 : '"' ∉ xs := fun hh => hq (List.mem_cons_of_mem x hh)
          have hb2 : '\\' ∉ xs := fun hh => hb (List.mem_cons_of_mem x hh)
          obtain ⟨u2, hu2, _⟩ := escape_quotes_append_split xs t b hq2 hb2 h2
          refine ⟨[], u2, ?_⟩
          simp only [List.nil_append, List.cons_append]
          rw [hu2, h1]
      | cons a0 a2 =>
        simp only [List.cons_append, List.append_assoc] at h
        injection h with h1 h2
        rw [← List.append_assoc] at h2
        obtain ⟨a4, b4, hab⟩ := ih a2 b h2
        refine ⟨c :: a4, b4, ?_⟩
        rw [hab]
        simp only [List.cons_append, List.append_assoc]

theorem occursB_escape_eq_false {s sub : PyStr} (hq : '"' ∉ sub) (hb : '\\' ∉ sub)
    (h : occursB s sub = false) : occursB (escape_quotes s) sub = false := by
  cases hoc : occursB (escape_quotes s) sub
  · rfl
  · obtain ⟨a, b, hab⟩ := occursB_iff.mp hoc
    obtain ⟨a2, b2, h2⟩ := occurs_of_occurs_escape hq hb s a b hab
    rw [occursB_iff.mpr ⟨a2, b2, h2⟩] at h
    cases h

theorem quotesEscapedB_cons {c : Char} {l : PyStr} (hc : c ≠ '"')
    (hl : quotesEscapedB l = true) : quotesEscapedB (c :: l) = true := by
  cases l with
  | nil =>
    show (if c = '"' then false else true) = true
    rw [if_neg hc]
  | cons d t =>
    have hdef : quotesEscapedB (c :: d :: t)
        = if c = '"' then false
          else if c = '\\' ∧ d = '"' then quotesEscapedB t
          else quotesEscapedB (d :: t) := rfl
    rw [hdef, if_neg hc]
    by_cases hpair : c = '\\' ∧ d = '"'
    · exfalso
      rcases hpair with ⟨_, h2⟩
      subst h2
      cases t with
      | nil => exact absurd hl (by decide)
      | cons e t2 =>
        have : quotesEscapedB ('"' :: e :: t2) = false := rfl
        rw [this] at hl
        cases hl
    · rw [if_neg hpair]
      exact hl

theorem quotesEscapedB_escape (s : PyStr) : quotesEscapedB (escape_quotes s) = true := by
  induction s with
  | nil => rfl
  | cons c t ih =>
    by_cases hc : c = '"'
    · subst hc
      rw [escape_quotes, if_pos rfl]
      have hdef : quotesEscapedB ('\\' :: '"' :: escape_quotes t)
          = quotesEscapedB (escape_quotes t) := by
        have h1 : quotesEscapedB ('\\' :: '"' :: escape_quotes t)
            = if ('\\' : Char) = '"' then false
              else if ('\\' : Char) = '\\' ∧ ('"' : Char) = '"' then
                quotesEscapedB (escape_quotes t)
              else quotesEscapedB ('"' :: escape_quotes t) := rfl
        rw [h1, if_neg (by decide), if_pos (by decide)]
      rw [hdef]
      exact ih
    · rw [escape_quotes, if_neg hc]
      exact quotesEscapedB_cons hc ih

/-! ### Sanitizer loop lemmas -/

theorem process_symbols_loop_eq (l : List PyStr) :
    process_symbols_loop l = l.filterMap symStep := by
  induction l with
  | nil => rfl
  | cons s rest ih =>
    simp only [process_symbols_loop, List.filterMap_cons, symStep]
    by_cases h1 : occursB s TIMESTAMP_MARKER = true
    · simp [h1, ih]
    · by_cases h2 : (decide ('"' ∈ s) && occursB s (pstr ".h")) = true
      · simp [h1, h2, ih]
      · simp [h1, h2, ih]

theorem process_symbols_loop_length (l : List PyStr) :
    (process_symbols_loop l).length + l.countP (fun s => occursB s TIMESTAMP_MARKER)
      = l.length := by
  induction l with
  | nil => rfl
  | cons s rest ih =>
    simp only [process_symbols_loop]
    by_cases h1 : occursB s TIMESTAMP_MARKER = true
    · rw [if_pos h1,
        List.countP_cons_of_pos (fun x => occursB x TIMESTAMP_MARKER) rest h1,
        List.length_cons]
      omega
    · have h1f : occursB s TIMESTAMP_MARKER = false := by
        cases hs : occursB s TIMESTAMP_MARKER
        · rfl
        · exact absurd hs h1
      rw [if_neg h1,
        List.countP_cons_of_neg (fun x => occursB x TIMESTAMP_MARKER) rest (by simp [h1f])]
      by_cases h2 : (decide ('"' ∈ s) && occursB s (pstr ".h")) = true
      · rw [if_pos h2, List.length_cons, List.length_cons]
        omega
      · rw [if_neg h2, List.length_cons, List.length_cons]
        omega

theorem mem_process_symbols {l : List PyStr} {s : PyStr} :
    s ∈ process_symbols l ↔ s ∈ process_symbols_loop l :=
  (List.perm_insertionSort pyLe (process_symbols_loop l)).mem_iff

theorem ne_nil_of_mem_fix_paths {fw : PyStr} {paths : List (Option PyStr)} {s : PyStr}
    (h : s ∈ fix_paths fw paths) : s ≠ [] := by
  induction paths with
  | nil => rw [show fix_paths fw [] = [] from rfl] at h; cases h
  | cons p rest ih =>
    rw [fix_paths] at h
    by_cases hp : fix_path fw p = []
    · rw [if_pos hp] at h; exact ih h
    · rw [if_neg hp] at h
      rcases List.mem_cons.mp h with h2 | h2
      · rw [h2]; exact hp
      · exact ih h2

/-! ### Claim C4 -/

/-- C4 (confirmed): on the concrete raw symbol list
`["MBED_BUILD_TIMESTAMP=12345", "FOO", "BAR=1",
"CMSIS_VECTAB_VIRTUAL_HEADER_FILE="cmsis_nvic.h""]`, `process_symbols`
returns exactly the sorted list with the timestamp entry dropped and the
quotes backslash-escaped. -/
theorem process_symbols_end_to_end :
    process_symbols
      [pstr "MBED_BUILD_TIMESTAMP=12345", pstr "FOO", pstr "BAR=1",
       pstr "CMSIS_VECTAB_VIRTUAL_HEADER_FILE=\"cmsis_nvic.h\""]
    = [pstr "BAR=1", pstr "CMSIS_VECTAB_VIRTUAL_HEADER_FILE=\\\"cmsis_nvic.h\\\"",
       pstr "FOO"] := by decide

/-! ### Claim C9 -/

/-- C9 (confirmed): if the basename of the configured framework root does not
occur as a substring of the input path, `fix_path` returns the input
unchanged, and for falsy inputs (`None` or the empty string) it returns the
empty string. -/
theorem fix_path_unchanged_without_marker (framework_path p : PyStr)
    (h : occursB p (basename framework_path) = false) :
    fix_path framework_path (some p) = p
    ∧ fix_path framework_path none = []
    ∧ fix_path framework_path (some []) = [] := by
  refine ⟨?_, rfl, rfl⟩
  by_cases hp : p = []
  · subst hp; rfl
  · have hnone : findSub p (basename framework_path) = none := by
      unfold occursB at h
      cases hfs : findSub p (basename framework_path) with
      | none => rfl
      | some i => rw [hfs] at h; cases h
    have hdef : fix_path framework_path (some p)
        = if p = [] then []
          else
            match findSub p (basename framework_path) with
            | some i => ((p.drop (i + (basename framework_path).length)).drop 1)
            | none => p := rfl
    rw [hdef, if_neg hp, hnone]

/-- Witness for C9 at a concrete framework root and path. -/
theorem fix_path_unchanged_without_marker_witness :
    occursB (pstr "src/main.cpp") (basename (pstr "packages/framework-mbed")) = false
    ∧ (fix_path (pstr "packages/framework-mbed") (some (pstr "src/main.cpp"))
          = pstr "src/main.cpp"
       ∧ fix_path (pstr "packages/framework-mbed") none = []
       ∧ fix_path (pstr "packages/framework-mbed") (some []) = []) :=
  ⟨by decide, fix_path_unchanged_without_marker (pstr "packages/framework-mbed")
    (pstr "src/main.cpp") (by decide)⟩

/-! ### Claim C10 -/

/-- C10 (confirmed): every entry of the `libs` field of the extraction result
is the basename of a normalized library path, and therefore contains no path
separator. -/
theorem libs_entries_are_sep_free_basenames (fw : PyStr) (res : Resources) (tc : Toolchain)
    (s : PyStr) (hs : s ∈ (mbed_result fw res tc).libs) :
    (∃ p ∈ fix_paths fw res.libraries, s = basename p) ∧ sep ∉ s := by
  have hlibs : (mbed_result fw res tc).libs = (fix_paths fw res.libraries).map basename := rfl
  rw [hlibs] at hs
  obtain ⟨p, hp, hps⟩ := List.mem_map.mp hs
  exact ⟨⟨p, hp, hps.symm⟩, hps ▸ sep_not_mem_basename p⟩

/-- Witness for C10 at a concrete scan result with one library. -/
theorem libs_entries_are_sep_free_basenames_witness :
    pstr "libfoo.a" ∈ (mbed_result (pstr "fwb")
        ⟨[], [], [], [], none, [], [some (pstr "fwb/x/libfoo.a")], [], [], []⟩
        ⟨[], [], []⟩).libs
    ∧ ((∃ p ∈ fix_paths (pstr "fwb") [some (pstr "fwb/x/libfoo.a")],
          pstr "libfoo.a" = basename p)
       ∧ sep ∉ pstr "libfoo.a") :=
  ⟨by decide, libs_entries_are_sep_free_basenames (pstr "fwb")
    ⟨[], [], [], [], none, [], [some (pstr "fwb/x/libfoo.a")], [], [], []⟩
    ⟨[], [], []⟩ (pstr "libfoo.a") (by decide)⟩

/-! ### Claim C5 -/

/-- C5 counterexample: a path with a single component (fewer than two) is not
normalized to the empty string — `fix_path` returns it unchanged because the
framework-basename marker does not occur in it — and it is not dropped by
`fix_paths`. -/
theorem fix_path_short_input_kept :
    (splitSep (pstr "main.c")).length < 2
    ∧ fix_path (pstr "pkg/framework-mbed") (some (pstr "main.c")) ≠ []
    ∧ fix_paths (pstr "pkg/framework-mbed") [some (pstr "main.c")] = [pstr "main.c"] := by
  decide

/-- C5 (corrected): every entry on which the normalizer yields the empty
string is dropped by `fix_paths` — the empty string never occurs in a
`fix_paths` output, hence in none of the path-list fields of the result —
and an empty input list yields an empty output list.  (The claim's premise
that every input with fewer than two components normalizes to `""` is what
fails; see the counterexample.) -/
theorem fix_paths_drops_empty_entries (fw : PyStr) (paths : List (Option PyStr))
    (res : Resources) (tc : Toolchain) :
    [] ∉ fix_paths fw paths
    ∧ fix_paths fw [] = []
    ∧ [] ∉ (mbed_result fw res tc).src_files
    ∧ [] ∉ (mbed_result fw res tc).inc_dirs
    ∧ [] ∉ (mbed_result fw res tc).ldscript
    ∧ [] ∉ (mbed_result fw res tc).objs
    ∧ [] ∉ (mbed_result fw res tc).lib_paths
    ∧ [] ∉ (mbed_result fw res tc).hex
    ∧ [] ∉ (mbed_result fw res tc).bin :=
  ⟨fun h => ne_nil_of_mem_fix_paths h rfl, rfl,
   fun h => ne_nil_of_mem_fix_paths h rfl,
   fun h => ne_nil_of_mem_fix_paths h rfl,
   fun h => ne_nil_of_mem_fix_paths h rfl,
   fun h => ne_nil_of_mem_fix_paths h rfl,
   fun h => ne_nil_of_mem_fix_paths h rfl,
   fun h => ne_nil_of_mem_fix_paths h rfl,
   fun h => ne_nil_of_mem_fix_paths h rfl⟩

/-! ### Claim C7 -/

/-- C7 counterexample: with every raw file-reference list empty but a
non-empty toolchain symbol list, the list-valued `build_symbols` field of the
result is not empty, so not every list-valued field is empty. -/
theorem empty_scan_nonempty_symbols :
    raw_file_refs_empty ⟨[], [], [], [], none, [], [], [], [], []⟩
    ∧ (mbed_result (pstr "fw") ⟨[], [], [], [], none, [], [], [], [], []⟩
        ⟨[], [], [pstr "FOO"]⟩).build_symbols ≠ [] := by decide

/-- C7 (corrected): when every raw file-reference list returned by the
resource scanner is empty, every file-reference-derived list field of the
result is present and equal to the empty list.  (Fields fed by the toolchain
rather than the scanner — `build_symbols`, `syslibs`, `build_flags` — are
not controlled by the scan; see the counterexample.) -/
theorem empty_scan_empty_path_fields (fw : PyStr) (res : Resources) (tc : Toolchain)
    (h : raw_file_refs_empty res) :
    (mbed_result fw res tc).src_files = []
    ∧ (mbed_result fw res tc).inc_dirs = []
    ∧ (mbed_result fw res tc).ldscript = []
    ∧ (mbed_result fw res tc).objs = []
    ∧ (mbed_result fw res tc).libs = []
    ∧ (mbed_result fw res tc).lib_paths = []
    ∧ (mbed_result fw res tc).hex = []
    ∧ (mbed_result fw res tc).bin = [] := by
  rcases res with ⟨s1, s2, s3, s4, s5, s6, s7, s8, s9, s10⟩
  obtain ⟨h1, h2, h3, h4, h5, h6, h7, h8, h9, h10⟩ := h
  subst h1; subst h2; subst h3; subst h4; subst h5
  subst h6; subst h7; subst h8; subst h9; subst h10
  exact ⟨rfl, rfl, rfl, rfl, rfl, rfl, rfl, rfl⟩

/-- Witness for C7 at a concrete empty scan result. -/
theorem empty_scan_empty_path_fields_witness :
    raw_file_refs_empty ⟨[], [], [], [], none, [], [], [], [], []⟩
    ∧ ((mbed_result (pstr "fw2") ⟨[], [], [], [], none, [], [], [], [], []⟩
          ⟨[], [pstr "m"], [pstr "BAR"]⟩).src_files = []
       ∧ (mbed_result (pstr "fw2") ⟨[], [], [], [], none, [], [], [], [], []⟩
          ⟨[], [pstr "m"], [pstr "BAR"]⟩).inc_dirs = []
       ∧ (mbed_result (pstr "fw2") ⟨[], [], [], [], none, [], [], [], [], []⟩
          ⟨[], [pstr "m"], [pstr "BAR"]⟩).ldscript = []
       ∧ (mbed_result (pstr "fw2") ⟨[], [], [], [], none, [], [], [], [], []⟩
          ⟨[], [pstr "m"], [pstr "BAR"]⟩).objs = []
       ∧ (mbed_result (pstr "fw2") ⟨[], [], [], [], none, [], [], [], [], []⟩
          ⟨[], [pstr "m"], [pstr "BAR"]⟩).libs = []
       ∧ (mbed_result (pstr "fw2") ⟨[], [], [], [], none, [], [], [], [], []⟩
          ⟨[], [pstr "m"], [pstr "BAR"]⟩).lib_paths = []
       ∧ (mbed_result (pstr "fw2") ⟨[], [], [], [], none, [], [], [], [], []⟩
          ⟨[], [pstr "m"], [pstr "BAR"]⟩).hex = []
       ∧ (mbed_result (pstr "fw2") ⟨[], [], [], [], none, [], [], [], [], []⟩
          ⟨[], [pstr "m"], [pstr "BAR"]⟩).bin = []) :=
  ⟨by decide, empty_scan_empty_path_fields (pstr "fw2")
    ⟨[], [], [], [], none, [], [], [], [], []⟩ ⟨[], [pstr "m"], [pstr "BAR"]⟩ (by decide)⟩

/-! ### Claim C6 -/

/-- C6 (the code is wrong here): on a target identifier absent from the
registry, `get_target_config` calls `sys.stderr.write` with two positional
arguments, so the run dies from an uncaught `TypeError` with an empty event
trace — no diagnostic naming the target is ever written and `sys.exit(1)` is
never reached — though it does abort before toolchain preparation and the
resource scan.  On a missing profile file (second conjunct) the diagnostic
is written and the process exits with status 1, again with no toolchain
preparation or scan. -/
theorem extract_project_info_fatal_paths :
    extract_project_info
      { target_map := [(pstr "NUCLEO_F401RE", ⟨0⟩)],
        profile_file_exists := true,
        profile_contents := (),
        toolchain := ⟨[], [], []⟩,
        resources := ⟨[], [], [], [], none, [], [], [], [], []⟩ }
      (pstr "packages/framework-mbed") (pstr "UNKNOWN_TARGET") false
      = ([], Except.error (PyAbort.typeErrorRaised
          (pstr "write() takes exactly one argument (2 given)")))
    ∧ extract_project_info
      { target_map := [(pstr "NUCLEO_F401RE", ⟨0⟩)],
        profile_file_exists := false,
        profile_contents := (),
        toolchain := ⟨[], [], []⟩,
        resources := ⟨[], [], [], [], none, [], [], [], [], []⟩ }
      (pstr "packages/framework-mbed") (pstr "NUCLEO_F401RE") false
      = ([BuildEvent.wroteStderr (pstr "Could not find the file with build profiles!\n")],
         Except.error (PyAbort.exited 1)) := by
  exact ⟨rfl, rfl⟩

/-! ### Claim C3 -/

/-- C3 counterexample: the quote-and-`.h` test is on the whole entry string,
not on the value.  For `A.hB="1"` the value `"1"` contains a quote but no
`.h`, so by the claim the entry should be retained unchanged — yet
`process_symbols` escapes it (the `.h` sits in the name). -/
theorem process_symbols_checks_whole_entry :
    occursB (pyValue (pstr "A.hB=\"1\"")) (pstr ".h") = false
    ∧ process_symbols [pstr "A.hB=\"1\""] = [pstr "A.hB=\\\"1\\\""]
    ∧ pstr "A.hB=\\\"1\\\"" ≠ pstr "A.hB=\"1\"" := by decide

/-- C3 (corrected): for every entry without the timestamp marker, if the
whole entry string contains a quote character together with a `.h`
substring, the entry is kept with every quote prefixed by a backslash (and
every literal quote of the escaped entry is immediately preceded by a
backslash); if the whole entry does not contain both, it is retained
unchanged.  (The test is on the whole `NAME=VALUE` string, not the value,
and marker-bearing entries are dropped first.) -/
theorem process_symbols_escape_entries (symbols : List PyStr) (s : PyStr)
    (hmem : s ∈ symbols) (hts : occursB s TIMESTAMP_MARKER = false) :
    ((decide ('"' ∈ s) && occursB s (pstr ".h")) = true →
        escape_quotes s ∈ process_symbols symbols
        ∧ quotesEscapedB (escape_quotes s) = true)
    ∧ ((decide ('"' ∈ s) && occursB s (pstr ".h")) = false →
        s ∈ process_symbols symbols) := by
  constructor
  · intro hcond
    refine ⟨?_, quotesEscapedB_escape s⟩
    rw [mem_process_symbols, process_symbols_loop_eq]
    refine List.mem_filterMap.mpr ⟨s, hmem, ?_⟩
    unfold symStep
    rw [if_neg (by simp [hts]), if_pos hcond]
  · intro hcond
    rw [mem_process_symbols, process_symbols_loop_eq]
    refine List.mem_filterMap.mpr ⟨s, hmem, ?_⟩
    unfold symStep
    rw [if_neg (by simp [hts]), if_neg (by simp [hcond])]

/-- Witness for C3 on a symbol list with one escapable and one plain entry. -/
theorem process_symbols_escape_entries_witness :
    pstr "CM=\"a.h\"" ∈ [pstr "CM=\"a.h\"", pstr "PLAIN"]
    ∧ occursB (pstr "CM=\"a.h\"") TIMESTAMP_MARKER = false
    ∧ (((decide ('"' ∈ pstr "CM=\"a.h\"") && occursB (pstr "CM=\"a.h\"") (pstr ".h")) = true →
          escape_quotes (pstr "CM=\"a.h\"")
              ∈ process_symbols [pstr "CM=\"a.h\"", pstr "PLAIN"]
          ∧ quotesEscapedB (escape_quotes (pstr "CM=\"a.h\"")) = true)
       ∧ ((decide ('"' ∈ pstr "CM=\"a.h\"") && occursB (pstr "CM=\"a.h\"") (pstr ".h")) = false →
          pstr "CM=\"a.h\"" ∈ process_symbols [pstr "CM=\"a.h\"", pstr "PLAIN"])) :=
  ⟨by decide, by decide,
   process_symbols_escape_entries [pstr "CM=\"a.h\"", pstr "PLAIN"] (pstr "CM=\"a.h\"")
     (by decide) (by decide)⟩

/-! ### Claim C2 -/

/-- C2 counterexample: on a duplicate input the output of `process_symbols`
keeps both copies, so it is sorted but not strictly sorted. -/
theorem process_symbols_not_strictly_sorted :
    process_symbols [pstr "FOO", pstr "FOO"] = [pstr "FOO", pstr "FOO"]
    ∧ strictSortedB (process_symbols [pstr "FOO", pstr "FOO"]) = false := by decide

/-- C2 (corrected): for every raw symbol list, the output of
`process_symbols` is sorted ascending (non-strictly: duplicates survive),
contains no entry in which the timestamp marker occurs, is the same for
every permutation of the input, and has length equal to the input length
minus the number of timestamp-marker drops. -/
theorem process_symbols_sorted_spec (l1 l2 : List PyStr) (hperm : l1.Perm l2) :
    List.Sorted pyLe (process_symbols l1)
    ∧ (∀ s ∈ process_symbols l1, occursB s TIMESTAMP_MARKER = false)
    ∧ process_symbols l1 = process_symbols l2
    ∧ (process_symbols l1).length
        = l1.length - l1.countP (fun s => occursB s TIMESTAMP_MARKER) := by
  haveI : IsTotal PyStr pyLe := ⟨lexLe_total⟩
  haveI : IsTrans PyStr pyLe := ⟨fun _ _ _ => lexLe_trans⟩
  haveI : IsAntisymm PyStr pyLe := ⟨fun _ _ => lexLe_antisymm⟩
  refine ⟨List.sorted_insertionSort pyLe _, ?_, ?_, ?_⟩
  · intro s hs
    rw [mem_process_symbols, process_symbols_loop_eq] at hs
    obtain ⟨a, ha, hstep⟩ := List.mem_filterMap.mp hs
    unfold symStep at hstep
    by_cases h1 : occursB a TIMESTAMP_MARKER = true
    · rw [if_pos h1] at hstep; cases hstep
    · have h1f : occursB a TIMESTAMP_MARKER = false := by
        cases hoc : occursB a TIMESTAMP_MARKER
        · rfl
        · exact absurd hoc h1
      rw [if_neg h1] at hstep
      by_cases h2 : (decide ('"' ∈ a) && occursB a (pstr ".h")) = true
      · rw [if_pos h2] at hstep
        injection hstep with hstep
        rw [← hstep]
        exact occursB_escape_eq_false (by decide) (by decide) h1f
      · rw [if_neg h2] at hstep
        injection hstep with hstep
        rw [← hstep]
        exact h1f
  · have hp : (process_symbols_loop l1).Perm (process_symbols_loop l2) := by
      rw [process_symbols_loop_eq, process_symbols_loop_eq]
      exact hperm.filterMap symStep
    exact List.eq_of_perm_of_sorted
      (((List.perm_insertionSort pyLe _).trans hp).trans
        (List.perm_insertionSort pyLe _).symm)
      (List.sorted_insertionSort pyLe _) (List.sorted_insertionSort pyLe _)
  · have hl : (process_symbols l1).length = (process_symbols_loop l1).length :=
      (List.perm_insertionSort pyLe _).length_eq
    have hadd := process_symbols_loop_length l1
    omega

/-- Witness for C2 on a permuted pair of concrete symbol lists. -/
theorem process_symbols_sorted_spec_witness :
    ([pstr "B", pstr "MBED_BUILD_TIMESTAMP=1", pstr "A"]).Perm
        [pstr "A", pstr "B", pstr "MBED_BUILD_TIMESTAMP=1"]
    ∧ (List.Sorted pyLe (process_symbols [pstr "B", pstr "MBED_BUILD_TIMESTAMP=1", pstr "A"])
       ∧ (∀ s ∈ process_symbols [pstr "B", pstr "MBED_BUILD_TIMESTAMP=1", pstr "A"],
            occursB s TIMESTAMP_MARKER = false)
       ∧ process_symbols [pstr "B", pstr "MBED_BUILD_TIMESTAMP=1", pstr "A"]
           = process_symbols [pstr "A", pstr "B", pstr "MBED_BUILD_TIMESTAMP=1"]
       ∧ (process_symbols [pstr "B", pstr "MBED_BUILD_TIMESTAMP=1", pstr "A"]).length
           = ([pstr "B", pstr "MBED_BUILD_TIMESTAMP=1", pstr "A"] : List PyStr).length
             - ([pstr "B", pstr "MBED_BUILD_TIMESTAMP=1", pstr "A"] : List PyStr).countP
                 (fun s => occursB s TIMESTAMP_MARKER)) :=
  ⟨by decide, process_symbols_sorted_spec
    [pstr "B", pstr "MBED_BUILD_TIMESTAMP=1", pstr "A"]
    [pstr "A", pstr "B", pstr "MBED_BUILD_TIMESTAMP=1"] (by decide)⟩

/-! ### Claim C8 -/

theorem merge_apps_true_eq (wl : List PyStr) (bp ufn up fp : PyStr) (regions : List Region) :
    merge_apps wl bp ufn true regions up fp
      = (if (regions.map (fun r => if r.active then { r with filename := some up } else r)).filter
            (fun r => decide (r.name ∈ wl)) = []
         then [⟨regions.map (fun r => if r.active then { r with filename := some up } else r),
               fp⟩]
         else [⟨regions.map (fun r => if r.active then { r with filename := some up } else r),
               fp⟩,
               ⟨(regions.map (fun r => if r.active then { r with filename := some up }
                   else r)).filter (fun r => decide (r.name ∈ wl)),
                pyJoin bp ufn⟩]) := rfl

theorem patched_region_get (regions : List Region) (up : PyStr) (i : Nat)
    (h1 : i < regions.length)
    (h2 : i < (regions.map (fun r => if r.active then { r with filename := some up }
        else r)).length) :
    (regions.map (fun r => if r.active then { r with filename := some up } else r)).get ⟨i, h2⟩
      = if (regions.get ⟨i, h1⟩).active
        then { regions.get ⟨i, h1⟩ with filename := some up }
        else regions.get ⟨i, h1⟩ := by
  simp [List.get_eq_getElem, List.getElem_map]

theorem patched_region_name (r : Region) (up : PyStr) :
    (if r.active then { r with filename := some up } else r).name = r.name := by
  by_cases ha : r.active <;> simp [ha]

/-- C8 (confirmed): when the target has regions, `merge_apps` requests a
first merge at the firmware path on the region list in which exactly the
active regions get their filename replaced by the user program path (all
other fields, and inactive regions entirely, unchanged), and it requests a
second (update-image) merge if and only if some region's name is in the
update allow-list. -/
theorem merge_apps_region_handling (wl : List PyStr) (bp ufn up fp : PyStr)
    (regions : List Region) :
    ∃ patched rest,
      merge_apps wl bp ufn true regions up fp = ⟨patched, fp⟩ :: rest
      ∧ patched.length = regions.length
      ∧ (∀ i (h1 : i < regions.length) (h2 : i < patched.length),
           patched.get ⟨i, h2⟩ =
             if (regions.get ⟨i, h1⟩).active
             then { regions.get ⟨i, h1⟩ with filename := some up }
             else regions.get ⟨i, h1⟩)
      ∧ (rest ≠ [] ↔ ∃ r ∈ regions, r.name ∈ wl) := by
  by_cases hupd : (regions.map (fun r => if r.active then { r with filename := some up }
      else r)).filter (fun r => decide (r.name ∈ wl)) = []
  · refine ⟨regions.map (fun r => if r.active then { r with filename := some up } else r),
      [], ?_, List.length_map _ _, fun i h1 h2 => patched_region_get regions up i h1 h2, ?_⟩
    · rw [merge_apps_true_eq, if_pos hupd]
    · constructor
      · intro hne; exact absurd rfl hne
      · rintro ⟨r0, hr0, hn⟩
        exfalso
        have hmem := List.mem_map_of_mem
          (fun r => if r.active then { r with filename := some up } else r) hr0
        have hnot := List.filter_eq_nil_iff.mp hupd _ hmem
        apply hnot
        rw [decide_eq_true_eq, patched_region_name r0 up]
        exact hn
  · refine ⟨regions.map (fun r => if r.active then { r with filename := some up } else r),
      [⟨(regions.map (fun r => if r.active then { r with filename := some up }
          else r)).filter (fun r => decide (r.name ∈ wl)), pyJoin bp ufn⟩],
      ?_, List.length_map _ _, fun i h1 h2 => patched_region_get regions up i h1 h2, ?_⟩
    · rw [merge_apps_true_eq, if_neg hupd]
    · constructor
      · intro _
        obtain ⟨r, hr, hq⟩ : ∃ r ∈ regions.map (fun r => if r.active
            then { r with filename := some up } else r), decide (r.name ∈ wl) = true := by
          by_contra hno
          push_neg at hno
          refine hupd (List.filter_eq_nil_iff.mpr ?_)
          intro a ha
          exact hno a ha
        obtain ⟨r0, hr0, hr0e⟩ := List.mem_map.mp hr
        refine ⟨r0, hr0, ?_⟩
        have hname : r.name = r0.name := by rw [← hr0e, patched_region_name]
        rw [← hname]
        exact of_decide_eq_true hq
      · intro _
        simp

/-- Witness for C8 on a concrete two-region configuration. -/
theorem merge_apps_region_handling_witness :
    ∃ patched rest,
      merge_apps [pstr "application"] (pstr "bld") (pstr "fw_update.bin") true
          [⟨pstr "bootloader", 0, 10, false, some (pstr "boot.bin")⟩,
           ⟨pstr "application", 10, 90, true, none⟩]
          (pstr "prog.bin") (pstr "firmware.bin")
        = ⟨patched, pstr "firmware.bin"⟩ :: rest
      ∧ patched.length
          = ([⟨pstr "bootloader", 0, 10, false, some (pstr "boot.bin")⟩,
              ⟨pstr "application", 10, 90, true, none⟩] : List Region).length
      ∧ (∀ i (h1 : i < ([⟨pstr "bootloader", 0, 10, false, some (pstr "boot.bin")⟩,
              ⟨pstr "application", 10, 90, true, none⟩] : List Region).length)
           (h2 : i < patched.length),
           patched.get ⟨i, h2⟩ =
             if (([⟨pstr "bootloader", 0, 10, false, some (pstr "boot.bin")⟩,
                   ⟨pstr "application", 10, 90, true, none⟩] : List Region).get ⟨i, h1⟩).active
             then { ([⟨pstr "bootloader", 0, 10, false, some (pstr "boot.bin")⟩,
                     ⟨pstr "application", 10, 90, true, none⟩] : List Region).get ⟨i, h1⟩ with
                    filename := some (pstr "prog.bin") }
             else ([⟨pstr "bootloader", 0, 10, false, some (pstr "boot.bin")⟩,
                    ⟨pstr "application", 10, 90, true, none⟩] : List Region).get ⟨i, h1⟩)
      ∧ (rest ≠ [] ↔ ∃ r ∈ ([⟨pstr "bootloader", 0, 10, false, some (pstr "boot.bin")⟩,
            ⟨pstr "application", 10, 90, true, none⟩] : List Region),
            r.name ∈ [pstr "application"]) :=
  merge_apps_region_handling [pstr "application"] (pstr "bld") (pstr "fw_update.bin")
    (pstr "prog.bin") (pstr "firmware.bin")
    [⟨pstr "bootloader", 0, 10, false, some (pstr "boot.bin")⟩,
     ⟨pstr "application", 10, 90, true, none⟩]

/-! ### Claim C1 -/

/-- When the marker `fwdir` is separator-free, does not occur inside
`c0 ++ [sep]`, and sits right after that prefix, its first occurrence in
`c0 ++ sep :: (fwdir ++ q)` is at index `c0.length + 1`. -/
theorem findSub_second_component (fwdir c0 q : PyStr)
    (hsepfree : sep ∉ fwdir)
    (hocc : occursB (c0 ++ [sep]) fwdir = false) :
    findSub (c0 ++ sep :: (fwdir ++ q)) fwdir = some (c0.length + 1) := by
  rw [findSub_eq_some_iff]
  constructor
  · have hdrop : (c0 ++ sep :: (fwdir ++ q)).drop (c0.length + 1) = fwdir ++ q := by
      rw [List.append_cons]
      refine List.drop_left' ?_
      simp
    rw [hdrop]
    exact startsWithL_append fwdir q
  · intro j hj
    have hjle : j ≤ c0.length := Nat.lt_succ_iff.mp hj
    cases hsw : startsWithL fwdir ((c0 ++ sep :: (fwdir ++ q)).drop j)
    · rfl
    · exfalso
      obtain ⟨t, ht⟩ := startsWithL_iff.mp hsw
      rw [List.drop_append_of_le_length hjle] at ht
      have htake := congrArg (fun l => List.take fwdir.length l) ht
      simp only at htake
      rw [List.take_left, List.take_append_eq_append_take] at htake
      by_cases hle : fwdir.length ≤ (c0.drop j).length
      · rw [Nat.sub_eq_zero_of_le hle, List.take_zero, List.append_nil] at htake
        have hshape : c0 ++ [sep]
            = c0.take j ++ fwdir ++ ((c0.drop j).drop fwdir.length ++ [sep]) := by
          conv_lhs => rw [← List.take_append_drop j c0]
          conv_lhs => rw [← List.take_append_drop fwdir.length (c0.drop j)]
          rw [htake]
          simp [List.append_assoc]
        have hocc2 : occursB (c0 ++ [sep]) fwdir = true :=
          occursB_iff.mpr ⟨c0.take j, (c0.drop j).drop fwdir.length ++ [sep], hshape⟩
        rw [hocc2] at hocc
        cases hocc
      · have hlt : (c0.drop j).length < fwdir.length := Nat.lt_of_not_le hle
        rw [List.take_of_length_le (Nat.le_of_lt hlt)] at htake
        cases hm : fwdir.length - (c0.drop j).length with
        | zero => exact absurd (Nat.sub_eq_zero_iff_le.mp hm) hle
        | succ m2 =>
          rw [hm, List.take_succ_cons] at htake
          apply hsepfree
          rw [← htake]
          exact List.mem_append_right _ (List.mem_cons_self _ _)

/-- Evaluating `fix_path` on a path whose second component is exactly the
framework basename (with no earlier occurrence of the marker). -/
theorem fix_path_eval_second_component (framework_path c0 rest : PyStr)
    (hocc : occursB (c0 ++ [sep]) (basename framework_path) = false) :
    fix_path framework_path (some (c0 ++ sep :: (basename framework_path ++ sep :: rest)))
      = rest := by
  have hfind := findSub_second_component (basename framework_path) c0 (sep :: rest)
    (sep_not_mem_basename framework_path) hocc
  have hne : c0 ++ sep :: (basename framework_path ++ sep :: rest) ≠ [] := by
    intro h
    have hlen := congrArg List.length h
    simp at hlen
  have hdef : fix_path framework_path
      (some (c0 ++ sep :: (basename framework_path ++ sep :: rest)))
      = if (c0 ++ sep :: (basename framework_path ++ sep :: rest)) = [] then []
        else
          match findSub (c0 ++ sep :: (basename framework_path ++ sep :: rest))
              (basename framework_path) with
          | some i => (((c0 ++ sep :: (basename framework_path ++ sep :: rest)).drop
              (i + (basename framework_path).length)).drop 1)
          | none => (c0 ++ sep :: (basename framework_path ++ sep :: rest)) := rfl
  rw [hdef, if_neg hne, hfind]
  show (((c0 ++ sep :: (basename framework_path ++ sep :: rest)).drop
      (c0.length + 1 + (basename framework_path).length)).drop 1) = rest
  have hp : c0 ++ sep :: (basename framework_path ++ sep :: rest)
      = ((c0 ++ [sep]) ++ basename framework_path) ++ sep :: rest := by
    simp [List.append_assoc]
  rw [hp, List.drop_left' (by
    simp only [List.length_append, List.length_cons, List.length_nil] :
      ((c0 ++ [sep]) ++ basename framework_path).length
        = c0.length + 1 + (basename framework_path).length)]
  rfl

/-- C1 counterexample: the path `a/b/c` has three (≥ 2) components, yet with
framework basename `fw` — which does not occur in the path — `fix_path`
returns the path unchanged rather than components `[2:]` rejoined with the
separator. -/
theorem fix_path_not_components_drop :
    2 ≤ (splitSep (pstr "a/b/c")).length
    ∧ fix_path (pstr "fw") (some (pstr "a/b/c"))
        ≠ joinSep ((splitSep (pstr "a/b/c")).drop 2) := by decide

/-- C1 (corrected): `fix_path` discards the first two path components (and
equals components `[2:N]` rejoined with the separator) exactly on paths of
the form `first/fwdir/rest` whose second component is the framework-root
basename and where that basename does not occur earlier in the path; it is
the marker occurrence, not a component count, that drives the
normalization. -/
theorem fix_path_drops_exactly_leading_marker_components (framework_path c0 rest : PyStr)
    (hc0 : sep ∉ c0)
    (hocc : occursB (c0 ++ [sep]) (basename framework_path) = false) :
    fix_path framework_path (some (c0 ++ sep :: (basename framework_path ++ sep :: rest)))
      = rest
    ∧ joinSep ((splitSep (c0 ++ sep :: (basename framework_path ++ sep :: rest))).drop 2)
      = rest
    ∧ 2 ≤ (splitSep (c0 ++ sep :: (basename framework_path ++ sep :: rest))).length := by
  have hsplit : splitSep (c0 ++ sep :: (basename framework_path ++ sep :: rest))
      = c0 :: basename framework_path :: splitSep rest := by
    rw [splitSep_sep_append c0 _ hc0,
      splitSep_sep_append (basename framework_path) rest (sep_not_mem_basename _)]
  refine ⟨fix_path_eval_second_component framework_path c0 rest hocc, ?_, ?_⟩
  · rw [hsplit]
    show joinSep (splitSep rest) = rest
    exact joinSep_splitSep rest
  · rw [hsplit, List.length_cons, List.length_cons]
    omega

/-- Witness for C1 on the concrete path `tmp/framework-mbed/drivers/uart.c`. -/
theorem fix_path_drops_exactly_leading_marker_components_witness :
    sep ∉ pstr "tmp"
    ∧ occursB (pstr "tmp" ++ [sep]) (basename (pstr "pkg/framework-mbed")) = false
    ∧ (fix_path (pstr "pkg/framework-mbed")
          (some (pstr "tmp" ++ sep :: (basename (pstr "pkg/framework-mbed")
            ++ sep :: pstr "drivers/uart.c"))) = pstr "drivers/uart.c"
       ∧ joinSep ((splitSep (pstr "tmp" ++ sep :: (basename (pstr "pkg/framework-mbed")
            ++ sep :: pstr "drivers/uart.c"))).drop 2) = pstr "drivers/uart.c"
       ∧ 2 ≤ (splitSep (pstr "tmp" ++ sep :: (basename (pstr "pkg/framework-mbed")
            ++ sep :: pstr "drivers/uart.c"))).length) :=
  ⟨by decide, by decide,
   fix_path_drops_exactly_leading_marker_components (pstr "pkg/framework-mbed")
     (pstr "tmp") (pstr "drivers/uart.c") (by decide) (by decide)⟩

end Mbed

